import Mathlib

/-!
Verification of the serenade Kotlin tree-sitter grammar (`grammar.js`).

The development embeds, as executable Lean definitions, the parts of the
grammar that the verified properties are about:

* the `PREC` operator-precedence table and the declared associativity of
  every expression rule (`prec.left` / `prec.right` declarations);
* the grammar-rule DSL (`seq`, `choice`, `field`, `blank`, ...) together
  with the `optional_with_placeholder` helper and a derivation relation,
  used to verify the placeholder-field invariant;
* the lexical literal grammar: `DEC_DIGITS`, `integer_literal`,
  `hex_literal`, `bin_literal`, `real_literal`, line and multi-line
  string literals with their two interpolation forms;
* a deterministic parser realizing the precedence-climbing behavior of the
  expression grammar and the declared conflict-resolution policy
  (generics-vs-comparison, soft-keyword-vs-identifier), producing concrete
  syntax trees whose leaves are the source tokens.

Tokens carry their leading trivia (whitespace and comments, the grammar's
`extras`) and their own text, so that concatenating the leaves of a parse
tree reproduces the input exactly (the round-trip property).
-/

namespace Kotlin

/-! ### The operator-precedence table (`PREC`, grammar.js lines 27-50) -/

/-- Names of the entries of the `PREC` table in grammar.js. -/
inductive PrecName where
  | postfixOp | prefixOp | typeRhs | asCast
  | multiplicative | additive | range | infixCall
  | elvis | check | comparison | equality
  | conjunction | disjunction | spread | simpleUserType
  | varDecl | assignment | block
  | lambdaLiteral | returnOrThrow | comment
  deriving DecidableEq, Repr

/-- The `PREC` table from grammar.js: each named entry's numeric level
(higher binds tighter). -/
def PREC : PrecName → Nat
  | .postfixOp => 16
  | .prefixOp => 15
  | .typeRhs => 14
  | .asCast => 13
  | .multiplicative => 12
  | .additive => 11
  | .range => 10
  | .infixCall => 9
  | .elvis => 8
  | .check => 7
  | .comparison => 6
  | .equality => 5
  | .conjunction => 4
  | .disjunction => 3
  | .spread => 2
  | .simpleUserType => 2
  | .varDecl => 1
  | .assignment => 1
  | .block => 1
  | .lambdaLiteral => 0
  | .returnOrThrow => 0
  | .comment => 0

/-- All entries of the `PREC` table, in the order they are written in
grammar.js. -/
def precNames : List PrecName :=
  [.postfixOp, .prefixOp, .typeRhs, .asCast,
   .multiplicative, .additive, .range, .infixCall,
   .elvis, .check, .comparison, .equality,
   .conjunction, .disjunction, .spread, .simpleUserType,
   .varDecl, .assignment, .block,
   .lambdaLiteral, .returnOrThrow, .comment]

/-- The distinct numeric levels appearing in the `PREC` table. -/
def precLevels : List Nat := (precNames.map PREC).dedup

/-! ### Declared associativity of the expression rules

Each expression rule of grammar.js is wrapped in `prec.left`,
`prec.right` or `prec` (no associativity); `prec.right` with no numeric
argument has level 0.  This table transcribes those declarations. -/

inductive Assoc where
  | left | right | none
  deriving DecidableEq, Repr

/-- The expression-level rules of grammar.js that carry a precedence or
associativity declaration. -/
inductive ExprRule where
  | postfixE     -- postfix_expression, line 730
  | callE        -- call, line 733
  | indexingE    -- indexing_expression, line 735
  | navigationE  -- navigation_expression, line 738
  | prefixE      -- prefix_expression, line 741
  | asE          -- as_expression, line 749
  | spreadE      -- spread_expression, line 752
  | multiplicativeE | additiveE | rangeE | infixE | elvisE | checkE
  | comparisonE | equalityE | conjunctionE | disjunctionE
  | assignmentE  -- assignment, line 691
  deriving DecidableEq, Repr

/-- Declared associativity of each expression rule, read off the
`prec.left` / `prec.right` wrapper in grammar.js. -/
def ruleAssoc : ExprRule → Assoc
  | .postfixE => .left
  | .callE => .left
  | .indexingE => .left
  | .navigationE => .left
  | .prefixE => .right
  | .asE => .left
  | .spreadE => .left
  | .multiplicativeE => .left
  | .additiveE => .left
  | .rangeE => .left
  | .infixE => .left
  | .elvisE => .left
  | .checkE => .left
  | .comparisonE => .left
  | .equalityE => .left
  | .conjunctionE => .left
  | .disjunctionE => .left
  | .assignmentE => .left

/-- Declared numeric precedence level of each expression rule
(`prec.right` with no numeric argument is level 0). -/
def ruleLevel : ExprRule → Nat
  | .postfixE => PREC .postfixOp
  | .callE => PREC .postfixOp
  | .indexingE => PREC .postfixOp
  | .navigationE => PREC .postfixOp
  | .prefixE => 0
  | .asE => PREC .asCast
  | .spreadE => PREC .spread
  | .multiplicativeE => PREC .multiplicative
  | .additiveE => PREC .additive
  | .rangeE => PREC .range
  | .infixE => PREC .infixCall
  | .elvisE => PREC .elvis
  | .checkE => PREC .check
  | .comparisonE => PREC .comparison
  | .equalityE => PREC .equality
  | .conjunctionE => PREC .conjunction
  | .disjunctionE => PREC .disjunction
  | .assignmentE => PREC .assignment

/-- The binary arithmetic, logical and comparison rules of the grammar
(the members of `_binary_expression`, grammar.js lines 756-770). -/
def binaryRules : List ExprRule :=
  [.multiplicativeE, .additiveE, .rangeE, .infixE, .elvisE, .checkE,
   .comparisonE, .equalityE, .conjunctionE, .disjunctionE]

/-! ### The grammar-rule DSL and the placeholder-field invariant

A small embedding of the tree-sitter rule DSL used by grammar.js, deep
enough to express `optional_with_placeholder` (grammar.js lines
1373-1375) and the rules that use it.  Rules referenced but not needed
structurally are embedded as opaque references (`ref`). -/

/-- The tree-sitter rule DSL as used in grammar.js.  `precW` covers the
`prec`/`prec.left`/`prec.right`/`prec.dynamic` wrappers, which do not
change what a rule derives. -/
inductive Rule where
  | term (s : String)
  | ref (name : String)
  | seqR (rs : List Rule)
  | choiceR (rs : List Rule)
  | repR (r : Rule)
  | rep1R (r : Rule)
  | fieldR (f : String) (r : Rule)
  | blankR
  | aliasR (r : Rule) (pub : String)
  | precW (n : Nat) (r : Rule)

/-- tree-sitter's `optional(rule)` is `choice(rule, blank())`. -/
def optR (r : Rule) : Rule := .choiceR [r, .blankR]

/-- The `sep1` helper of grammar.js: `seq(rule, repeat(seq(separator, rule)))`. -/
def sep1R (r sep : Rule) : Rule := .seqR [r, .repR (.seqR [sep, r])]

/-- `optional_with_placeholder` from grammar.js lines 1373-1375:
`choice(field(field_name, rule), field(field_name, blank()))`. -/
def optional_with_placeholder (f : String) (r : Rule) : Rule :=
  .choiceR [.fieldR f r, .fieldR f .blankR]

/-- `Derives r fs` holds when one derivation of rule `r` produces exactly
the list `fs` of bound field names (in source order).  The `fld`
constructor records that a `field(f, rule)` binding always materializes
its field.  Modelled from the spec for the blank case: the runtime that
renders the tree binds the field to an explicit empty marker node when
the wrapped rule derives nothing, rather than omitting the field. -/
inductive Derives : Rule → List String → Prop where
  | term (s : String) : Derives (.term s) []
  | ref (n : String) : Derives (.ref n) []
  | blank : Derives .blankR []
  | fld {r : Rule} {fs : List String} (f : String) :
      Derives r fs → Derives (.fieldR f r) (f :: fs)
  | seqNil : Derives (.seqR []) []
  | seqCons {r : Rule} {rs : List Rule} {fs gs : List String} :
      Derives r fs → Derives (.seqR rs) gs → Derives (.seqR (r :: rs)) (fs ++ gs)
  | ch {r : Rule} {rs : List Rule} {fs : List String} :
      r ∈ rs → Derives r fs → Derives (.choiceR rs) fs
  | repNil (r : Rule) : Derives (.repR r) []
  | repCons {r : Rule} {fs gs : List String} :
      Derives r fs → Derives (.repR r) gs → Derives (.repR r) (fs ++ gs)
  | rep1 {r : Rule} {fs gs : List String} :
      Derives r fs → Derives (.repR r) gs → Derives (.rep1R r) (fs ++ gs)
  | al {r : Rule} {fs : List String} (pub : String) :
      Derives r fs → Derives (.aliasR r pub) fs
  | pw {r : Rule} {fs : List String} (n : Nat) :
      Derives r fs → Derives (.precW n r) fs

/-- The start rule `program` (grammar.js lines 141-148). -/
def programRule : Rule :=
  .seqR
    [optR (.ref "shebang_line"),
     .repR (.ref "file_annotation"),
     optR (.ref "package_header"),
     optional_with_placeholder "import_list" (.repR (.ref "import")),
     optional_with_placeholder "statement_list" (.repR (.ref "statement"))]

/-- `function_value_parameters_` (grammar.js lines 347-360). -/
def functionValueParametersRule : Rule :=
  .seqR
    [.term "(",
     optional_with_placeholder "parameter_list"
       (.seqR
         [optR (sep1R (.aliasR (.ref "function_value_parameter_") "parameter") (.term ",")),
          optR (.term ",")]),
     .term ")"]

/-- `enum_class_body` (grammar.js lines 515-526). -/
def enumClassBodyRule : Rule :=
  .seqR
    [.term "\x7b",
     optional_with_placeholder "enum_member_list"
       (.seqR
         [optR (.ref "_enum_entries"),
          optR (.seqR [.term ";", optR (.ref "class_member_declarations_")])]),
     .term "\x7d"]

/-- `value_arguments` (grammar.js lines 853-861). -/
def valueArgumentsRule : Rule :=
  .seqR
    [.term "(",
     optional_with_placeholder "argument_list"
       (sep1R (.aliasR (.ref "value_argument") "argument") (.term ",")),
     .term ")"]

/-- The `try` rule (grammar.js lines 1046-1051). -/
def tryRule : Rule :=
  .seqR
    [.ref "try_clause",
     optional_with_placeholder "catch_list" (.rep1R (.ref "catch")),
     optional_with_placeholder "finally_clause_optional" (.ref "finally_clause")]

/-- `enclosed_body` (grammar.js lines 630-634). -/
def enclosedBodyRule : Rule :=
  .precW (PREC .block)
    (.seqR
      [.term "\x7b",
       optional_with_placeholder "statement_list" (.ref "statements"),
       .term "\x7d"])


/-! ### Tokens

A token records its leading trivia (`extras`: whitespace and comments,
grammar.js lines 124-127), its kind, and its own text.  String-literal
tokens additionally carry their parsed segment structure: literal text
runs, escape sequences, `$identifier` interpolations and
`${expression}` interpolations (whose contents are themselves token
lists, since the grammar nests a full `expression_` there). -/

mutual
inductive Seg where
  | txt (cs : List Char)
  | esc (cs : List Char)
  | interpId (name : List Char)
  | interpExpr (toks : List Tok)

inductive TokKind where
  | word
  | intL
  | hexL
  | binL
  | realL
  | opK
  | eofK
  | strL (multi : Bool) (segs : List Seg)

inductive Tok where
  | mk (pre : List Char) (kind : TokKind) (text : List Char)
end

def Tok.pre : Tok → List Char
  | .mk p _ _ => p

def Tok.kind : Tok → TokKind
  | .mk _ k _ => k

def Tok.text : Tok → List Char
  | .mk _ _ t => t

/-- The characters a token contributes to the source: its leading trivia
followed by its own text. -/
def tokChars (t : Tok) : List Char := t.pre ++ t.text

def toksChars : List Tok → List Char
  | [] => []
  | t :: ts => tokChars t ++ toksChars ts

/-! ### Character classes and the literal matchers (grammar.js lines 51-54,
1300-1323, 1343-1365)

Each matcher returns the length of the longest prefix of the input
matching the corresponding token pattern (`none` when there is no
match), realizing the maximal-munch semantics of the lexer. -/

def isWsC (c : Char) : Bool := c = ' ' ∨ c = '\t' ∨ c = '\n' ∨ c = '\r'

def isIdStart (c : Char) : Bool := c.isAlpha ∨ c = '_'

def isIdChar (c : Char) : Bool := c.isAlpha ∨ c = '_' ∨ c.isDigit

def isHexC (c : Char) : Bool :=
  c.isDigit ∨ ('a' ≤ c ∧ c ≤ 'f') ∨ ('A' ≤ c ∧ c ≤ 'F')

def isBinC (c : Char) : Bool := c = '0' ∨ c = '1'

/-- Length of the longest prefix all of whose characters satisfy `p`. -/
def cwl (p : Char → Bool) (cs : List Char) : Nat := (cs.takeWhile p).length

/-- One digit group of `DEC_DIGITS`: `/[0-9]+/`. -/
def decGroup (cs : List Char) : Option Nat :=
  let d := cwl Char.isDigit cs
  if d = 0 then none else some d

/-- One digit group of `HEX_DIGITS`: `/[0-9a-fA-F]+/`. -/
def hexGroup (cs : List Char) : Option Nat :=
  let d := cwl isHexC cs
  if d = 0 then none else some d

/-- One digit group of `BIN_DIGITS`: `/[01]/` (a single binary digit, as
written in grammar.js line 53). -/
def binGroup : List Char → Option Nat
  | c :: _ => if isBinC c then some 1 else none
  | [] => none

/-- The `repeat(seq(/_+/, group))` part of `sep1(group, /_+/)`:
underscore runs are permitted only between digit groups. -/
def sepGroups (g : List Char → Option Nat) : Nat → List Char → Nat
  | 0, _ => 0
  | fuel + 1, cs =>
    let u := cwl (· = '_') cs
    if u = 0 then 0
    else
      match g (cs.drop u) with
      | none => 0
      | some d => u + d + sepGroups g fuel (cs.drop (u + d))

/-- `sep1(group, /_+/)`, i.e. `DEC_DIGITS`/`HEX_DIGITS`/`BIN_DIGITS`
depending on the group matcher. -/
def sepDigits (g : List Char → Option Nat) (fuel : Nat) (cs : List Char) : Option Nat :=
  (g cs).map fun d => d + sepGroups g fuel (cs.drop d)

/-- `REAL_EXPONENT`: `token(seq(/[eE]/, optional(/[+-]/), DEC_DIGITS))`. -/
def expLen (fuel : Nat) : List Char → Option Nat
  | c :: rest =>
    if c = 'e' ∨ c = 'E' then
      match rest with
      | d :: rest2 =>
        if d = '+' ∨ d = '-' then (sepDigits decGroup fuel rest2).map (· + 2)
        else (sepDigits decGroup fuel rest).map (· + 1)
      | [] => none
    else none
  | [] => none

/-- Larger of two optional match lengths (longest match wins; the first
argument wins ties, mirroring alternative order in the grammar). -/
def optMax : Option Nat → Option Nat → Option Nat
  | some x, some y => some (max x y)
  | some x, none => some x
  | none, y => y

/-- `real_literal` (grammar.js lines 1300-1317): either
`DEC_DIGITS REAL_EXPONENT` or `[DEC_DIGITS] '.' DEC_DIGITS [REAL_EXPONENT]`,
each with an optional `f`/`F` suffix, or `DEC_DIGITS` directly followed
by `f`/`F`.  A leading sign is not part of the pattern. -/
def realLen (fuel : Nat) (cs : List Char) : Option Nat :=
  let dOpt := sepDigits decGroup fuel cs
  let alt1 : Option Nat :=
    dOpt.bind fun d => (expLen fuel (cs.drop d)).map fun e => d + e
  let alt2 : Option Nat :=
    let d0 := dOpt.getD 0
    match cs.drop d0 with
    | '.' :: rest =>
      (sepDigits decGroup fuel rest).map fun d2 =>
        d0 + 1 + d2 + (expLen fuel (rest.drop d2)).getD 0
    | _ => none
  let mantissa := optMax alt1 alt2
  let withSuffix :=
    mantissa.map fun n =>
      match cs.drop n with
      | c :: _ => if c = 'f' ∨ c = 'F' then n + 1 else n
      | [] => n
  let alt3 : Option Nat :=
    dOpt.bind fun d =>
      match cs.drop d with
      | c :: _ => if c = 'f' ∨ c = 'F' then some (d + 1) else none
      | [] => none
  optMax withSuffix alt3

/-- `integer_literal` (grammar.js line 1319):
`token(seq(optional(/[1-9]/), DEC_DIGITS))`. -/
def intLen (fuel : Nat) (cs : List Char) : Option Nat :=
  optMax (sepDigits decGroup fuel cs)
    (match cs with
     | c :: rest =>
       if '1' ≤ c ∧ c ≤ '9' then (sepDigits decGroup fuel rest).map (· + 1)
       else none
     | [] => none)

/-- `hex_literal` (grammar.js line 1321): `token(seq('0', /[xX]/, HEX_DIGITS))`. -/
def hexLen (fuel : Nat) : List Char → Option Nat
  | '0' :: x :: rest =>
    if x = 'x' ∨ x = 'X' then (sepDigits hexGroup fuel rest).map (· + 2) else none
  | _ => none

/-- `bin_literal` (grammar.js line 1323): `token(seq('0', /[bB]/, BIN_DIGITS))`. -/
def binLen (fuel : Nat) : List Char → Option Nat
  | '0' :: b :: rest =>
    if b = 'b' ∨ b = 'B' then (sepDigits binGroup fuel rest).map (· + 2) else none
  | _ => none

/-- An escape inside a line string, after its backslash:
`_escaped_identifier` (`/\\[tbrn'"\\$]/`) or `_uni_character_literal`
(`\u` plus four hex digits).  Returns the length excluding the
backslash. -/
def escLen : List Char → Option Nat
  | 'u' :: h1 :: h2 :: h3 :: h4 :: _ =>
    if isHexC h1 ∧ isHexC h2 ∧ isHexC h3 ∧ isHexC h4 then some 5 else none
  | c :: _ =>
    if c = 't' ∨ c = 'b' ∨ c = 'r' ∨ c = 'n' ∨ c = '\'' ∨ c = '"' ∨ c = '\\' ∨ c = '$'
    then some 1 else none
  | [] => none

/-- `_line_str_text` (grammar.js line 1360): `/[^\\"$]+/`. -/
def lineTextC (c : Char) : Bool := ¬(c = '\\' ∨ c = '"' ∨ c = '$')

/-- `_multi_line_str_text` (grammar.js line 1365): `/[^"$]+/`. -/
def multiTextC (c : Char) : Bool := ¬(c = '"' ∨ c = '$')

/-- Position after a block comment body, i.e. up to and including the
first `*/`. -/
def blockEnd : List Char → Option Nat
  | '*' :: '/' :: _ => some 2
  | _ :: rest => (blockEnd rest).map (· + 1)
  | [] => none

/-- `comment` (grammar.js lines 1266-1272): a `//` line comment or a
`/* ... */` block comment. -/
def commentLen : List Char → Option Nat
  | '/' :: '/' :: rest => some (2 + cwl (fun c => ¬(c = '\n' ∨ c = '\r')) rest)
  | '/' :: '*' :: rest => (blockEnd rest).map (· + 2)
  | _ => none

/-- Length of the leading trivia (whitespace and comments, the grammar's
`extras`). -/
def triviaLen : Nat → List Char → Nat
  | 0, _ => 0
  | fuel + 1, cs =>
    let w := cwl isWsC cs
    match commentLen (cs.drop w) with
    | some m => w + m + triviaLen fuel (cs.drop (w + m))
    | none => w

/-- The three-character operator tokens of the grammar. -/
def isOp3 (a b c : Char) : Bool :=
  (a = '=' ∧ b = '=' ∧ c = '=') ∨ (a = '!' ∧ b = '=' ∧ c = '=')

/-- The two-character operator tokens of the grammar. -/
def isOp2 (a b : Char) : Bool :=
  (a = '=' ∧ b = '=') ∨ (a = '!' ∧ b = '=') ∨ (a = '<' ∧ b = '=') ∨ (a = '>' ∧ b = '=') ∨
  (a = '&' ∧ b = '&') ∨ (a = '|' ∧ b = '|') ∨ (a = '?' ∧ b = ':') ∨ (a = '?' ∧ b = '.') ∨
  (a = ':' ∧ b = ':') ∨ (a = '-' ∧ b = '>') ∨ (a = '.' ∧ b = '.') ∨
  (a = '+' ∧ b = '=') ∨ (a = '-' ∧ b = '=') ∨ (a = '*' ∧ b = '=') ∨ (a = '/' ∧ b = '=') ∨
  (a = '%' ∧ b = '=') ∨ (a = '+' ∧ b = '+') ∨ (a = '-' ∧ b = '-') ∨ (a = '!' ∧ b = '!')

/-- The single-character operator and punctuation tokens of the grammar. -/
def isOp1 (a : Char) : Bool :=
  a = '+' ∨ a = '-' ∨ a = '*' ∨ a = '/' ∨ a = '%' ∨ a = '<' ∨ a = '>' ∨ a = '=' ∨
  a = '!' ∨ a = '(' ∨ a = ')' ∨ a = '[' ∨ a = ']' ∨ a = '\x7b' ∨ a = '\x7d' ∨
  a = ',' ∨ a = '.' ∨ a = ':' ∨ a = ';' ∨ a = '?' ∨ a = '@'

/-- Maximal-munch operator match length. -/
def opLen : List Char → Option Nat
  | a :: b :: c :: _ =>
    if isOp3 a b c then some 3
    else if isOp2 a b then some 2
    else if isOp1 a then some 1
    else none
  | a :: b :: _ =>
    if isOp2 a b then some 2 else if isOp1 a then some 1 else none
  | a :: _ => if isOp1 a then some 1 else none
  | [] => none

/-- Longest numeric-literal match at the head of the input, choosing
among `real_literal`, `hex_literal`, `bin_literal`, `integer_literal`
(longest match wins). -/
def numTok (fuel : Nat) (cs : List Char) : Option (TokKind × Nat) :=
  let pick (k : TokKind) (n : Option Nat) (best : Option (TokKind × Nat)) :
      Option (TokKind × Nat) :=
    match n, best with
    | some n, some (k0, n0) => if n > n0 then some (k, n) else some (k0, n0)
    | some n, none => some (k, n)
    | none, b => b
  pick .intL (intLen fuel cs)
    (pick .binL (binLen fuel cs)
      (pick .hexL (hexLen fuel cs)
        (pick .realL (realLen fuel cs) none)))

def headIsDigit : List Char → Bool
  | c :: _ => c.isDigit
  | [] => false

/-! ### The lexer loop

`lexList` produces the token stream: each step consumes leading trivia
and then the longest-matching token.  String literals are scanned by the
dedicated scanners below, which realize `line_string_literal`
(grammar.js lines 910-911), `multi_line_string_literal` (913-918) and
`interpolation_` (927-931); the `${...}` interpolation form captures a
nested token list obtained by running the same lexer until the matching
closing brace.

In `interpolation_`, the `${` of the expression form is a single
two-character token, but the identifier form is `seq('$',
simple_identifier)`: two separate tokens.  Since the grammar declares
`extras` (whitespace and comments) and uses no immediate tokens, extras
may intervene between the `$` token and the identifier token, and the
scanners skip them there. -/

mutual

def lexList (fuel : Nat) (cs : List Char) : Option (List Tok) :=
  match fuel with
  | 0 => none
  | fuel + 1 =>
    let n0 := triviaLen (cs.length + 1) cs
    let rem := cs.drop n0
    match rem with
    | [] => some [.mk (cs.take n0) .eofK []]
    | _ =>
      match lexOne fuel rem with
      | none => none
      | some (k, n1) =>
        (lexList fuel (rem.drop n1)).map fun toks =>
          .mk (cs.take n0) k (rem.take n1) :: toks

def lexOne (fuel : Nat) (cs : List Char) : Option (TokKind × Nat) :=
  match fuel with
  | 0 => none
  | fuel + 1 =>
    match cs with
    | [] => none
    | c :: rest =>
      if isIdStart c then some (.word, 1 + cwl isIdChar rest)
      else if c.isDigit ∨ (c = '.' ∧ headIsDigit rest) then numTok fuel cs
      else if c = '"' then
        match rest with
        | '"' :: '"' :: rest3 =>
          (scanMultiStr fuel rest3).map fun sn => (.strL true sn.1, 3 + sn.2)
        | _ =>
          (scanLineStr fuel rest).map fun sn => (.strL false sn.1, 1 + sn.2)
      else
        (opLen cs).map fun n => (.opK, n)

def scanLineStr (fuel : Nat) (cs : List Char) : Option (List Seg × Nat) :=
  match fuel with
  | 0 => none
  | fuel + 1 =>
    match cs with
    | [] => none
    | '"' :: _ => some ([], 1)
    | '\\' :: rest =>
      match escLen rest with
      | none => none
      | some m =>
        (scanLineStr fuel (rest.drop m)).map fun sn =>
          (.esc (cs.take (1 + m)) :: sn.1, 1 + m + sn.2)
    | '$' :: rest =>
      match rest with
      | '\x7b' :: rest2 =>
        match scanInterpToks fuel 0 rest2 with
        | none => none
        | some (toks, n) =>
          (scanLineStr fuel (rest2.drop n)).map fun sn =>
            (.interpExpr toks :: sn.1, 2 + n + sn.2)
      | _ =>
        let w := triviaLen (rest.length + 1) rest
        match rest.drop w with
        | c2 :: _ =>
          if isIdStart c2 then
            let m := cwl isIdChar (rest.drop w)
            (scanLineStr fuel ((rest.drop w).drop m)).map fun sn =>
              (.interpId ((rest.drop w).take m) :: sn.1, 1 + w + m + sn.2)
          else none
        | [] => none
    | _ =>
      let m := cwl lineTextC cs
      (scanLineStr fuel (cs.drop m)).map fun sn =>
        (.txt (cs.take m) :: sn.1, m + sn.2)

def scanMultiStr (fuel : Nat) (cs : List Char) : Option (List Seg × Nat) :=
  match fuel with
  | 0 => none
  | fuel + 1 =>
    match cs with
    | [] => none
    | '"' :: '"' :: '"' :: _ => some ([], 3)
    | '"' :: rest =>
      (scanMultiStr fuel rest).map fun sn => (.txt ['"'] :: sn.1, 1 + sn.2)
    | '$' :: rest =>
      match rest with
      | '\x7b' :: rest2 =>
        match scanInterpToks fuel 0 rest2 with
        | none => none
        | some (toks, n) =>
          (scanMultiStr fuel (rest2.drop n)).map fun sn =>
            (.interpExpr toks :: sn.1, 2 + n + sn.2)
      | _ =>
        let w := triviaLen (rest.length + 1) rest
        match rest.drop w with
        | c2 :: _ =>
          if isIdStart c2 then
            let m := cwl isIdChar (rest.drop w)
            (scanMultiStr fuel ((rest.drop w).drop m)).map fun sn =>
              (.interpId ((rest.drop w).take m) :: sn.1, 1 + w + m + sn.2)
          else none
        | [] => none
    | _ =>
      let m := cwl multiTextC cs
      (scanMultiStr fuel (cs.drop m)).map fun sn =>
        (.txt (cs.take m) :: sn.1, m + sn.2)

def scanInterpToks (fuel : Nat) (depth : Nat) (cs : List Char) : Option (List Tok × Nat) :=
  match fuel with
  | 0 => none
  | fuel + 1 =>
    let n0 := triviaLen (cs.length + 1) cs
    let rem := cs.drop n0
    match rem with
    | [] => none
    | c :: _ =>
      if c = '\x7d' ∧ depth = 0 then some ([], n0 + 1)
      else
        match lexOne fuel rem with
        | none => none
        | some (k, n1) =>
          let d2 : Nat :=
            match k, rem.take n1 with
            | .opK, [c1] =>
              if c1 = '\x7b' then depth + 1
              else if c1 = '\x7d' then depth - 1
              else depth
            | _, _ => depth
          (scanInterpToks fuel d2 (rem.drop n1)).map fun tn =>
            (Tok.mk (cs.take n0) k (rem.take n1) :: tn.1, n0 + n1 + tn.2)

end

/-- Fuel budget ample for any input of the given length. -/
def lexFuel (cs : List Char) : Nat := cs.length * 2 + 8

/-- The lexer entry point. -/
def lexKotlin (cs : List Char) : Option (List Tok) := lexList (lexFuel cs) cs

/-! ### Concrete syntax trees and the parser

A CST node is a kind name with ordered children; leaves are tokens.
The parser realizes the expression grammar by precedence climbing over
the `PREC` table (all binary rules are `prec.left`, so a right operand
is parsed at one level above the operator's), the `prec.right` prefix
rule, the postfix-level suffixes (`call_suffix` with optional
`type_arguments`), and the statement layer with its declared conflict
resolutions: a generic-call reading of `<` is taken only when the type
arguments are immediately followed by value-argument parentheses
(conflicts, grammar.js lines 87-94), and a soft keyword is read as a
modifier only when a declaration keyword follows (conflicts, lines
79-81). -/

inductive Cst where
  | leaf (t : Tok)
  | node (kind : String) (children : List Cst)

mutual
def cstToks : Cst → List Tok
  | .leaf t => [t]
  | .node _ cs => cstListToks cs

def cstListToks : List Cst → List Tok
  | [] => []
  | c :: cs => cstToks c ++ cstListToks cs
end

/-- The characters of a tree: the concatenation of its leaf tokens'
trivia and text, in source order. -/
def cstChars (c : Cst) : List Char := toksChars (cstToks c)

/-- The reserved words of the grammar: words that appear as anonymous
keyword tokens in rules and are extracted as keywords by the `word`
mechanism, hence are never a `simple_identifier`.  The soft keywords
`expect`, `data`, `inner`, `actual`, `set`, `get` (grammar.js lines
1243-1253) are deliberately absent. -/
def hardKeywords : List String :=
  ["package", "import", "class", "interface", "enum", "constructor", "companion",
   "object", "init", "val", "var", "by", "fun", "typealias", "where",
   "if", "else", "when", "try", "catch", "finally", "throw", "return",
   "continue", "break", "while", "for", "do", "is", "in", "as",
   "null", "true", "false", "this", "super", "dynamic"]

def hardKeyword (w : List Char) : Bool := hardKeywords.any fun s => s.toList == w

/-- Modifier keywords and the modifier rule each belongs to
(grammar.js lines 1161-1202). -/
def modifierTable : List (String × String) :=
  [("sealed", "class_modifier"), ("annotation", "class_modifier"),
   ("data", "class_modifier"), ("inner", "class_modifier"),
   ("override", "member_modifier"), ("lateinit", "member_modifier"),
   ("public", "visibility_modifier"), ("private", "visibility_modifier"),
   ("internal", "visibility_modifier"), ("protected", "visibility_modifier"),
   ("tailrec", "function_modifier"), ("operator", "function_modifier"),
   ("infix", "function_modifier"), ("inline", "function_modifier"),
   ("external", "function_modifier"), ("suspend", "function_modifier"),
   ("const", "property_modifier"),
   ("abstract", "inheritance_modifier"), ("final", "inheritance_modifier"),
   ("open", "inheritance_modifier"),
   ("vararg", "parameter_modifier"), ("noinline", "parameter_modifier"),
   ("crossinline", "parameter_modifier"),
   ("expect", "platform_modifier"), ("actual", "platform_modifier")]

def modifierKind (w : List Char) : Option String :=
  (modifierTable.find? fun p => p.1.toList == w).map (·.2)

def isOpT (t : Tok) (s : String) : Bool :=
  match t.kind with
  | .opK => t.text == s.toList
  | _ => false

def isWordT (t : Tok) (s : String) : Bool :=
  match t.kind with
  | .word => t.text == s.toList
  | _ => false

def isEofT (t : Tok) : Bool :=
  match t.kind with
  | .eofK => true
  | _ => false

/-- `_prefix_unary_operator` (grammar.js line 1112). -/
def isPrefixOpT (t : Tok) : Bool :=
  isOpT t "++" ∨ isOpT t "--" ∨ isOpT t "-" ∨ isOpT t "+" ∨ isOpT t "!"

/-- `_postfix_unary_operator` (grammar.js line 1114). -/
def isPostfixOpT (t : Tok) : Bool :=
  isOpT t "++" ∨ isOpT t "--" ∨ isOpT t "!!"

/-- `'='` and `_assignment_and_operator` (grammar.js line 1096). -/
def isAssignOpT (t : Tok) : Bool :=
  isOpT t "=" ∨ isOpT t "+=" ∨ isOpT t "-=" ∨ isOpT t "*=" ∨ isOpT t "/=" ∨ isOpT t "%="

/-- Binary-operator classification: the precedence level (from `PREC`)
and node kind of the `_binary_expression` rule the token heads.  A plain
identifier in operator position is an `infix_expression` operator
(grammar.js lines 787-791). -/
def binOf (t : Tok) : Option (Nat × String) :=
  match t.kind with
  | .opK =>
    let s := t.text
    if s == "*".toList ∨ s == "/".toList ∨ s == "%".toList then
      some (PREC .multiplicative, "multiplicative_expression")
    else if s == "+".toList ∨ s == "-".toList then
      some (PREC .additive, "additive_expression")
    else if s == "..".toList then some (PREC .range, "range_expression")
    else if s == "?:".toList then some (PREC .elvis, "elvis_expression")
    else if s == "<".toList ∨ s == ">".toList ∨ s == "<=".toList ∨ s == ">=".toList then
      some (PREC .comparison, "comparison_expression")
    else if s == "==".toList ∨ s == "!=".toList ∨ s == "===".toList ∨ s == "!==".toList then
      some (PREC .equality, "equality_expression")
    else if s == "&&".toList then some (PREC .conjunction, "conjunction_expression")
    else if s == "||".toList then some (PREC .disjunction, "disjunction_expression")
    else none
  | .word =>
    if t.text == "in".toList then some (PREC .check, "check_expression")
    else if hardKeyword t.text then none
    else some (PREC .infixCall, "infix_expression")
  | _ => none

mutual

def parsePrimary (fuel : Nat) (ts : List Tok) : Option (Cst × List Tok) :=
  match fuel with
  | 0 => none
  | fuel + 1 =>
    match ts with
    | [] => none
    | t :: rest =>
      match t.kind with
      | .word =>
        if t.text == "true".toList ∨ t.text == "false".toList then
          some (.node "boolean_literal" [.leaf t], rest)
        else if t.text == "null".toList then some (.leaf t, rest)
        else if hardKeyword t.text then none
        else some (.node "simple_identifier" [.leaf t], rest)
      | .intL => some (.node "integer_literal" [.leaf t], rest)
      | .hexL => some (.node "hex_literal" [.leaf t], rest)
      | .binL => some (.node "bin_literal" [.leaf t], rest)
      | .realL => some (.node "real_literal" [.leaf t], rest)
      | .strL true _ => some (.node "multi_line_string_literal" [.leaf t], rest)
      | .strL false _ => some (.node "line_string_literal" [.leaf t], rest)
      | .opK =>
        if t.text == "(".toList then
          match parseExpr fuel 0 rest with
          | none => none
          | some (e, ts2) =>
            match ts2 with
            | t2 :: rest2 =>
              if isOpT t2 ")" then
                some (.node "parenthesized_expression" [.leaf t, e, .leaf t2], rest2)
              else none
            | [] => none
        else none
      | _ => none

def parsePostfix (fuel : Nat) (lhs : Cst) (ts : List Tok) : Option (Cst × List Tok) :=
  match fuel with
  | 0 => none
  | fuel + 1 =>
    match ts with
    | [] => some (lhs, ts)
    | t :: rest =>
      if isOpT t "(" then
        match parseValueArgs fuel ts with
        | none => none
        | some (va, ts2) =>
          parsePostfix fuel (.node "call" [lhs, .node "call_suffix" [va]]) ts2
      else if isOpT t "<" then
        match tryGenericCall fuel lhs ts with
        | some (lhs2, ts2) => parsePostfix fuel lhs2 ts2
        | none => some (lhs, ts)
      else if isPostfixOpT t then
        parsePostfix fuel (.node "postfix_expression" [lhs, .leaf t]) rest
      else some (lhs, ts)

def tryGenericCall (fuel : Nat) (lhs : Cst) (ts : List Tok) : Option (Cst × List Tok) :=
  match fuel with
  | 0 => none
  | fuel + 1 =>
    match parseTypeArgs fuel ts with
    | none => none
    | some (ta, ts2) =>
      match ts2 with
      | t2 :: _ =>
        if isOpT t2 "(" then
          match parseValueArgs fuel ts2 with
          | none => none
          | some (va, ts3) =>
            some (.node "call" [lhs, .node "call_suffix" [ta, va]], ts3)
        else none
      | [] => none

def parseTypeArgs (fuel : Nat) (ts : List Tok) : Option (Cst × List Tok) :=
  match fuel with
  | 0 => none
  | fuel + 1 =>
    match ts with
    | t :: rest =>
      if isOpT t "<" then
        match parseTypeProj fuel rest with
        | none => none
        | some (p, ts2) => parseTypeArgsTail fuel [.leaf t, p] ts2
      else none
    | [] => none

def parseTypeArgsTail (fuel : Nat) (acc : List Cst) (ts : List Tok) :
    Option (Cst × List Tok) :=
  match fuel with
  | 0 => none
  | fuel + 1 =>
    match ts with
    | t :: rest =>
      if isOpT t "," then
        match parseTypeProj fuel rest with
        | none => none
        | some (p, ts2) => parseTypeArgsTail fuel (acc ++ [.leaf t, p]) ts2
      else if isOpT t ">" then
        some (.node "type_arguments" (acc ++ [.leaf t]), rest)
      else none
    | [] => none

def parseTypeProj (fuel : Nat) (ts : List Tok) : Option (Cst × List Tok) :=
  match fuel with
  | 0 => none
  | fuel + 1 =>
    match ts with
    | t :: rest =>
      if isOpT t "*" then some (.leaf t, rest)
      else
        match t.kind with
        | .word =>
          if hardKeyword t.text then none
          else
            match parseTypeArgs fuel rest with
            | some (ta, ts2) =>
              some (.node "user_type" [.node "type_identifier" [.leaf t], ta], ts2)
            | none =>
              some (.node "user_type" [.node "type_identifier" [.leaf t]], rest)
        | _ => none
    | [] => none

def parseValueArgs (fuel : Nat) (ts : List Tok) : Option (Cst × List Tok) :=
  match fuel with
  | 0 => none
  | fuel + 1 =>
    match ts with
    | t :: rest =>
      if isOpT t "(" then
        match rest with
        | t2 :: rest2 =>
          if isOpT t2 ")" then some (.node "value_arguments" [.leaf t, .leaf t2], rest2)
          else
            match parseExpr fuel 0 rest with
            | none => none
            | some (e, ts2) => parseValueArgsTail fuel [.leaf t, .node "argument" [e]] ts2
        | [] => none
      else none
    | [] => none

def parseValueArgsTail (fuel : Nat) (acc : List Cst) (ts : List Tok) :
    Option (Cst × List Tok) :=
  match fuel with
  | 0 => none
  | fuel + 1 =>
    match ts with
    | t :: rest =>
      if isOpT t "," then
        match parseExpr fuel 0 rest with
        | none => none
        | some (e, ts2) => parseValueArgsTail fuel (acc ++ [.leaf t, .node "argument" [e]]) ts2
      else if isOpT t ")" then
        some (.node "value_arguments" (acc ++ [.leaf t]), rest)
      else none
    | [] => none

def parseUnary (fuel : Nat) (ts : List Tok) : Option (Cst × List Tok) :=
  match fuel with
  | 0 => none
  | fuel + 1 =>
    match ts with
    | t :: rest =>
      if isPrefixOpT t then
        match parseUnary fuel rest with
        | none => none
        | some (e, ts2) => some (.node "prefix_expression" [.leaf t, e], ts2)
      else
        match parsePrimary fuel ts with
        | none => none
        | some (p, ts2) => parsePostfix fuel p ts2
    | [] => none

def parseBinLoop (fuel : Nat) (minP : Nat) (lhs : Cst) (ts : List Tok) :
    Option (Cst × List Tok) :=
  match fuel with
  | 0 => none
  | fuel + 1 =>
    match ts with
    | [] => some (lhs, ts)
    | t :: rest =>
      match binOf t with
      | none => some (lhs, ts)
      | some (p, kind) =>
        if minP ≤ p then
          match parseUnary fuel rest with
          | none => some (lhs, ts)
          | some (rhs0, ts2) =>
            match parseBinLoop fuel (p + 1) rhs0 ts2 with
            | none => none
            | some (rhs, ts3) =>
              parseBinLoop fuel minP (.node kind [lhs, .leaf t, rhs]) ts3
        else some (lhs, ts)

def parseExpr (fuel : Nat) (minP : Nat) (ts : List Tok) : Option (Cst × List Tok) :=
  match fuel with
  | 0 => none
  | fuel + 1 =>
    match parseUnary fuel ts with
    | none => none
    | some (u, ts2) => parseBinLoop fuel minP u ts2

end

/-- Consume a maximal run of modifier keywords (used with one token of
lookahead: the run is kept only when a declaration keyword follows,
realizing the `class_modifier`/`simple_identifier` and
`platform_modifier`/`simple_identifier` conflicts). -/
def takeModifiers (fuel : Nat) (ts : List Tok) : List Cst × List Tok :=
  match fuel with
  | 0 => ([], ts)
  | fuel + 1 =>
    match ts with
    | t :: rest =>
      match t.kind with
      | .word =>
        match modifierKind t.text with
        | some k =>
          let (ms, ts2) := takeModifiers fuel rest
          (.node k [.leaf t] :: ms, ts2)
        | none => ([], ts)
      | _ => ([], ts)
    | [] => ([], ts)

/-- Declarations of the embedded fragment: `class_declaration` (header
only) and `property`.  A modifier run is committed only when followed by
a declaration keyword. -/
def parseDecl (fuel : Nat) (ts : List Tok) : Option (Cst × List Tok) :=
  match fuel with
  | 0 => none
  | fuel + 1 =>
    let (ms, ts1) := takeModifiers fuel ts
    let modsChildren : List Cst := if ms.isEmpty then [] else [.node "modifiers" ms]
    match ts1 with
    | t :: rest =>
      if isWordT t "class" ∨ isWordT t "interface" then
        match rest with
        | n :: rest2 =>
          match n.kind with
          | .word =>
            if hardKeyword n.text then none
            else
              some (.node "class_declaration"
                (modsChildren ++ [.leaf t, .node "identifier" [.leaf n]]), rest2)
          | _ => none
        | [] => none
      else if isWordT t "val" ∨ isWordT t "var" then
        match rest with
        | n :: rest2 =>
          match n.kind with
          | .word =>
            if hardKeyword n.text then none
            else
              let varC : Cst := .node "assignment_variable" [.node "simple_identifier" [.leaf n]]
              match rest2 with
              | e1 :: rest3 =>
                if isOpT e1 "=" then
                  match parseExpr fuel 0 rest3 with
                  | none => none
                  | some (e, ts4) =>
                    some (.node "property"
                      (modsChildren ++
                        [.leaf t,
                         .node "assignment"
                           [varC, .node "assignment_value" [.leaf e1, e]]]), ts4)
                else
                  some (.node "property"
                    (modsChildren ++ [.leaf t, .node "assignment" [varC]]), rest2)
              | [] =>
                some (.node "property"
                  (modsChildren ++ [.leaf t, .node "assignment" [varC]]), rest2)
          | _ => none
        | [] => none
      else none
    | [] => none

/-- The `assignment` statement (grammar.js lines 691-706):
`directly_assignable_expression` followed by `=` or an augmented
assignment operator and an `assignment_value` expression.  The value is
an `expression_`, which does not include `assignment`, so assignments
cannot nest. -/
def parseAssign (fuel : Nat) (ts : List Tok) : Option (Cst × List Tok) :=
  match fuel with
  | 0 => none
  | fuel + 1 =>
    match ts with
    | t :: rest =>
      match t.kind with
      | .word =>
        if hardKeyword t.text then none
        else
          match rest with
          | o :: rest2 =>
            if isAssignOpT o then
              match parseExpr fuel 0 rest2 with
              | none => none
              | some (e, ts3) =>
                some (.node "assignment"
                  [.node "directly_assignable_expression" [.node "simple_identifier" [.leaf t]],
                   .leaf o, .node "assignment_value" [e]], ts3)
            else none
          | [] => none
      | _ => none
    | [] => none

/-- `statement_` (grammar.js lines 613-623): a declaration, an
assignment, or an expression, tried in that order. -/
def parseStatement (fuel : Nat) (ts : List Tok) : Option (Cst × List Tok) :=
  match fuel with
  | 0 => none
  | fuel + 1 =>
    match parseDecl fuel ts with
    | some (d, ts2) => some (d, ts2)
    | none =>
      match parseAssign fuel ts with
      | some (a, ts2) => some (a, ts2)
      | none =>
        match parseExpr fuel 0 ts with
        | none => none
        | some (e, ts2) => some (e, ts2)

/-- The statement loop of `program`: each parsed `statement_` is wrapped
in a `statement` node together with its terminator (`statement` is
`seq(statement_, _semi)`).  Statements are separated by `;` or by an
automatic terminator, which the terminator collaborator emits only at a
line break (a token whose leading trivia contains a newline). -/
def parseStmts (fuel : Nat) (acc : List Cst) (ts : List Tok) : Option (Cst × List Tok) :=
  match fuel with
  | 0 => none
  | fuel + 1 =>
    match ts with
    | [] => none
    | t :: rest =>
      if isEofT t then some (.node "program" (acc ++ [.leaf t]), rest)
      else
        match parseStatement fuel ts with
        | none => none
        | some (st, ts2) =>
          match ts2 with
          | t2 :: rest2 =>
            if isOpT t2 ";" then
              parseStmts fuel (acc ++ [.node "statement" [st, .leaf t2]]) rest2
            else if isEofT t2 ∨ t2.pre.contains '\n' then
              parseStmts fuel (acc ++ [.node "statement" [st]]) ts2
            else none
          | [] => none

/-- Parser fuel budget, ample for the token count. -/
def parseFuel (ts : List Tok) : Nat := ts.length * 8 + 16

/-- The full pipeline: lex, then parse one compilation unit. -/
def parseKotlin (cs : List Char) : Option Cst :=
  match lexKotlin cs with
  | none => none
  | some toks =>
    match parseStmts (parseFuel toks) [] toks with
    | some (t, []) => some t
    | _ => none

/-- Convenience entry point on `String`. -/
def parseKotlinStr (s : String) : Option Cst := parseKotlin s.toList

/-- The token-preservation property of every parsing function at a given
fuel value, conjoined for the mutual induction. -/
def ConsumesAt (n : Nat) : Prop :=
  (∀ ts r, parsePrimary n ts = some r → cstToks r.1 ++ r.2 = ts) ∧
  (∀ lhs ts r, parsePostfix n lhs ts = some r → cstToks r.1 ++ r.2 = cstToks lhs ++ ts) ∧
  (∀ lhs ts r, tryGenericCall n lhs ts = some r → cstToks r.1 ++ r.2 = cstToks lhs ++ ts) ∧
  (∀ ts r, parseTypeArgs n ts = some r → cstToks r.1 ++ r.2 = ts) ∧
  (∀ acc ts r, parseTypeArgsTail n acc ts = some r →
    cstToks r.1 ++ r.2 = cstListToks acc ++ ts) ∧
  (∀ ts r, parseTypeProj n ts = some r → cstToks r.1 ++ r.2 = ts) ∧
  (∀ ts r, parseValueArgs n ts = some r → cstToks r.1 ++ r.2 = ts) ∧
  (∀ acc ts r, parseValueArgsTail n acc ts = some r →
    cstToks r.1 ++ r.2 = cstListToks acc ++ ts) ∧
  (∀ ts r, parseUnary n ts = some r → cstToks r.1 ++ r.2 = ts) ∧
  (∀ minP lhs ts r, parseBinLoop n minP lhs ts = some r →
    cstToks r.1 ++ r.2 = cstToks lhs ++ ts) ∧
  (∀ minP ts r, parseExpr n minP ts = some r → cstToks r.1 ++ r.2 = ts) ∧
  (∀ ts r, parseDecl n ts = some r → cstToks r.1 ++ r.2 = ts) ∧
  (∀ ts r, parseAssign n ts = some r → cstToks r.1 ++ r.2 = ts) ∧
  (∀ ts r, parseStatement n ts = some r → cstToks r.1 ++ r.2 = ts) ∧
  (∀ acc ts r, parseStmts n acc ts = some r → cstToks r.1 ++ r.2 = cstListToks acc ++ ts)

/-! ### Helper definitions for the statements below -/

/-- Build a token from string literals. -/
def mkTok (pre : String) (k : TokKind) (txt : String) : Tok :=
  .mk pre.toList k txt.toList

/-- Is a string segment an `interpolated_identifier` child? -/
def isInterpIdSeg : Seg → Bool
  | .interpId _ => true
  | _ => false

/-- Number of `interpolated_identifier` children of a string literal's
segment list. -/
def countInterpIds (segs : List Seg) : Nat := (segs.filter isInterpIdSeg).length

/-- A concrete parse used to witness the round-trip theorem. -/
def rtExample : Cst := (parseKotlin ("val data = 5".toList)).getD (.node "program" [])

/-- Tokens of `<b>(c)` (following a parsed callee), used to witness the
generic-call gate. -/
def c1GenToks : List Tok :=
  [mkTok "" .opK "<", mkTok "" .word "b", mkTok "" .opK ">",
   mkTok "" .opK "(", mkTok "" .word "c", mkTok "" .opK ")"]

/-- A parsed callee `foo`. -/
def c1GenLhs : Cst := .node "simple_identifier" [.leaf (mkTok "" .word "foo")]

/-- The result of the generic-call reading of `foo<b>(c)`. -/
def c1GenRes : Cst × List Tok :=
  (tryGenericCall 9 c1GenLhs c1GenToks).getD (.node "program" [], [])

/-! ### Theorems: the placeholder-field invariant -/

/-- Every derivation of `optional_with_placeholder f r` binds the field
`f`: both branches of the choice are `field(f, _)`. -/
theorem derives_owp_mem {f : String} {r : Rule} {fs : List String}
    (h : Derives (optional_with_placeholder f r) fs) : f ∈ fs := by
  cases h with
  | ch hmem hd =>
    simp only [optional_with_placeholder, List.mem_cons, List.not_mem_nil, or_false,
      List.mem_singleton] at hmem
    rcases hmem with rfl | rfl <;> cases hd with
    | fld f hd2 => simp

/-- Derivations of `program` always bind `import_list` and
`statement_list`. -/
theorem program_binds_lists {fs : List String} (h : Derives programRule fs) :
    "import_list" ∈ fs ∧ "statement_list" ∈ fs := by
  cases h with
  | seqCons h1 h2 =>
  cases h2 with
  | seqCons h2 h3 =>
  cases h3 with
  | seqCons h3 h4 =>
  cases h4 with
  | seqCons h4 h5 =>
  cases h5 with
  | seqCons h5 h6 =>
  have m4 := derives_owp_mem h4
  have m5 := derives_owp_mem h5
  constructor <;> simp [List.mem_append, m4, m5]

/-- Derivations of `function_value_parameters_` always bind
`parameter_list`. -/
theorem fvp_binds_list {fs : List String}
    (h : Derives functionValueParametersRule fs) : "parameter_list" ∈ fs := by
  cases h with
  | seqCons h1 h2 =>
  cases h2 with
  | seqCons h2 h3 =>
  have m := derives_owp_mem h2
  simp [List.mem_append, m]

/-- Derivations of `enum_class_body` always bind `enum_member_list`. -/
theorem enum_body_binds_list {fs : List String}
    (h : Derives enumClassBodyRule fs) : "enum_member_list" ∈ fs := by
  cases h with
  | seqCons h1 h2 =>
  cases h2 with
  | seqCons h2 h3 =>
  have m := derives_owp_mem h2
  simp [List.mem_append, m]

/-- Derivations of `value_arguments` always bind `argument_list`. -/
theorem value_arguments_binds_list {fs : List String}
    (h : Derives valueArgumentsRule fs) : "argument_list" ∈ fs := by
  cases h with
  | seqCons h1 h2 =>
  cases h2 with
  | seqCons h2 h3 =>
  have m := derives_owp_mem h2
  simp [List.mem_append, m]

/-- Derivations of `try` always bind `catch_list`. -/
theorem try_binds_list {fs : List String}
    (h : Derives tryRule fs) : "catch_list" ∈ fs := by
  cases h with
  | seqCons h1 h2 =>
  cases h2 with
  | seqCons h2 h3 =>
  have m := derives_owp_mem h2
  simp [List.mem_append, m]

/-- Derivations of `enclosed_body` always bind `statement_list`. -/
theorem enclosed_body_binds_list {fs : List String}
    (h : Derives enclosedBodyRule fs) : "statement_list" ∈ fs := by
  cases h with
  | pw n h =>
  cases h with
  | seqCons h1 h2 =>
  cases h2 with
  | seqCons h2 h3 =>
  have m := derives_owp_mem h2
  simp [List.mem_append, m]

/-- A concrete derivation of `program`: no shebang, no file annotations,
no package header, and both list rules taking their blank placeholder
branch.  The derived field list is exactly the two placeholders. -/
theorem programDerivEmpty : Derives programRule ["import_list", "statement_list"] := by
  have h1 : Derives (optR (.ref "shebang_line")) [] := .ch (by simp [optR]) .blank
  have h3 : Derives (optR (.ref "package_header")) [] := .ch (by simp [optR]) .blank
  have h4 : Derives (optional_with_placeholder "import_list" (.repR (.ref "import")))
      ["import_list"] :=
    .ch (by simp [optional_with_placeholder]) (.fld "import_list" .blank)
  have h5 : Derives (optional_with_placeholder "statement_list" (.repR (.ref "statement")))
      ["statement_list"] :=
    .ch (by simp [optional_with_placeholder]) (.fld "statement_list" .blank)
  exact .seqCons h1 (.seqCons (.repNil _) (.seqCons h3 (.seqCons h4 (.seqCons h5 .seqNil))))

/-! ### Round trip, part 1: the lexer

Token texts are spans of the input by construction (`take`/`drop` at
each step), so the concatenation of trivia and text over the token
stream reproduces the input. -/

@[simp] theorem tokChars_mk (p : List Char) (k : TokKind) (x : List Char) :
    tokChars (.mk p k x) = p ++ x := rfl

theorem lexList_chars (fuel : Nat) :
    ∀ cs toks, lexList fuel cs = some toks → toksChars toks = cs := by
  induction fuel with
  | zero => intro cs toks h; simp [lexList] at h
  | succ n ih =>
    intro cs toks h
    simp only [lexList] at h
    split at h
    · rename_i hnil
      simp only [Option.some.injEq] at h
      subst h
      simp only [toksChars, tokChars_mk, List.append_nil]
      have h2 : cs.take (triviaLen (cs.length + 1) cs) ++
          cs.drop (triviaLen (cs.length + 1) cs) = cs := List.take_append_drop _ _
      rw [hnil, List.append_nil] at h2
      exact h2

    · split at h
      · exact absurd h (by simp)
      · rename_i k n1 hone
        rw [Option.map_eq_some'] at h
        obtain ⟨toks0, hrec, heq2⟩ := h
        subst heq2
        have hrest := ih _ _ hrec
        simp only [toksChars, tokChars_mk]
        rw [List.append_assoc, hrest]
        rw [List.take_append_drop, List.take_append_drop]

/-! ### Round trip, part 2: the parser consumes tokens in order

For every parsing function: the leaf tokens of the produced tree,
prepended to the unconsumed remainder, are exactly the input token
list. -/

@[simp] theorem cstToks_leaf (t : Tok) : cstToks (.leaf t) = [t] := rfl

@[simp] theorem cstToks_node (k : String) (cs : List Cst) :
    cstToks (.node k cs) = cstListToks cs := rfl

@[simp] theorem cstListToks_nil : cstListToks [] = [] := rfl

@[simp] theorem cstListToks_cons (c : Cst) (cs : List Cst) :
    cstListToks (c :: cs) = cstToks c ++ cstListToks cs := rfl

@[simp] theorem cstListToks_append (as bs : List Cst) :
    cstListToks (as ++ bs) = cstListToks as ++ cstListToks bs := by
  induction as with
  | nil => simp
  | cons a as ih => simp [ih]


theorem takeModifiers_chars (fuel : Nat) :
    ∀ ts, cstListToks (takeModifiers fuel ts).1 ++ (takeModifiers fuel ts).2 = ts := by
  induction fuel with
  | zero => intro ts; simp [takeModifiers]
  | succ n ih =>
    intro ts
    simp only [takeModifiers]
    split
    · rename_i t rest
      split
      · split
        · rename_i k hk
          have := ih rest
          simp only [cstListToks_cons, cstToks_node, cstListToks_cons, cstToks_leaf]
          simp_all
        · simp
      · simp
    · simp

theorem parsePrimary_step (n : Nat)
    (ihE : ∀ minP ts r, parseExpr n minP ts = some r → cstToks r.1 ++ r.2 = ts) :
    ∀ ts r, parsePrimary (n + 1) ts = some r → cstToks r.1 ++ r.2 = ts := by
  intro ts r h
  simp only [parsePrimary] at h
  split at h
  · exact absurd h (by simp)
  · rename_i t rest
    split at h
    · -- word
      split at h
      · simp only [Option.some.injEq] at h; subst h; simp
      · split at h
        · simp only [Option.some.injEq] at h; subst h; simp
        · split at h
          · exact absurd h (by simp)
          · simp only [Option.some.injEq] at h; subst h; simp
    · simp only [Option.some.injEq] at h; subst h; simp
    · simp only [Option.some.injEq] at h; subst h; simp
    · simp only [Option.some.injEq] at h; subst h; simp
    · simp only [Option.some.injEq] at h; subst h; simp
    · simp only [Option.some.injEq] at h; subst h; simp
    · simp only [Option.some.injEq] at h; subst h; simp
    · -- opK
      split at h
      · -- "("
        split at h
        · exact absurd h (by simp)
        · rename_i e ts2 hE
          have hEa := ihE _ _ _ hE
          split at h
          · rename_i t2 rest2
            split at h
            · simp only [Option.some.injEq] at h; subst h
              simp_all [List.append_assoc]
            · exact absurd h (by simp)
          · exact absurd h (by simp)
      · exact absurd h (by simp)
    · exact absurd h (by simp)

theorem parsePostfix_step (n : Nat)
    (ihVA : ∀ ts r, parseValueArgs n ts = some r → cstToks r.1 ++ r.2 = ts)
    (ihGen : ∀ lhs ts r, tryGenericCall n lhs ts = some r →
      cstToks r.1 ++ r.2 = cstToks lhs ++ ts)
    (ihPost : ∀ lhs ts r, parsePostfix n lhs ts = some r →
      cstToks r.1 ++ r.2 = cstToks lhs ++ ts) :
    ∀ lhs ts r, parsePostfix (n + 1) lhs ts = some r →
      cstToks r.1 ++ r.2 = cstToks lhs ++ ts := by
  intro lhs ts r h
  simp only [parsePostfix] at h
  split at h
  · simp only [Option.some.injEq] at h; subst h; simp
  · rename_i t rest
    split at h
    · -- "(" call
      split at h
      · exact absurd h (by simp)
      · rename_i va ts2 hva
        have h1 := ihPost _ _ _ h
        have h2 := ihVA _ _ hva
        simp_all [List.append_assoc]
    · split at h
      · -- "<": try the generic call
        split at h
        · rename_i lhs2 ts2 hgen
          have h1 := ihPost _ _ _ h
          have h2 := ihGen _ _ _ hgen
          simp_all [List.append_assoc]
        · simp only [Option.some.injEq] at h; subst h; simp
      · split at h
        · -- postfix unary operator
          have h1 := ihPost _ _ _ h
          simp_all [List.append_assoc]
        · simp only [Option.some.injEq] at h; subst h; simp

theorem tryGenericCall_step (n : Nat)
    (ihTA : ∀ ts r, parseTypeArgs n ts = some r → cstToks r.1 ++ r.2 = ts)
    (ihVA : ∀ ts r, parseValueArgs n ts = some r → cstToks r.1 ++ r.2 = ts) :
    ∀ lhs ts r, tryGenericCall (n + 1) lhs ts = some r →
      cstToks r.1 ++ r.2 = cstToks lhs ++ ts := by
  intro lhs ts r h
  simp only [tryGenericCall] at h
  split at h
  · exact absurd h (by simp)
  · rename_i ta ts2 hta
    have h2 := ihTA _ _ hta
    split at h
    · rename_i t2 rest2
      split at h
      · split at h
        · exact absurd h (by simp)
        · rename_i va ts3 hva
          have h3 := ihVA _ _ hva
          simp only [Option.some.injEq] at h; subst h
          simp_all [List.append_assoc]
      · exact absurd h (by simp)
    · exact absurd h (by simp)

theorem parseTypeArgs_step (n : Nat)
    (ihTP : ∀ ts r, parseTypeProj n ts = some r → cstToks r.1 ++ r.2 = ts)
    (ihTAT : ∀ acc ts r, parseTypeArgsTail n acc ts = some r →
      cstToks r.1 ++ r.2 = cstListToks acc ++ ts) :
    ∀ ts r, parseTypeArgs (n + 1) ts = some r → cstToks r.1 ++ r.2 = ts := by
  intro ts r h
  simp only [parseTypeArgs] at h
  split at h
  · rename_i t rest
    split at h
    · split at h
      · exact absurd h (by simp)
      · rename_i p ts2 hp
        have h1 := ihTAT _ _ _ h
        have h2 := ihTP _ _ hp
        simp_all [List.append_assoc]
    · exact absurd h (by simp)
  · exact absurd h (by simp)

theorem parseTypeArgsTail_step (n : Nat)
    (ihTP : ∀ ts r, parseTypeProj n ts = some r → cstToks r.1 ++ r.2 = ts)
    (ihTAT : ∀ acc ts r, parseTypeArgsTail n acc ts = some r →
      cstToks r.1 ++ r.2 = cstListToks acc ++ ts) :
    ∀ acc ts r, parseTypeArgsTail (n + 1) acc ts = some r →
      cstToks r.1 ++ r.2 = cstListToks acc ++ ts := by
  intro acc ts r h
  simp only [parseTypeArgsTail] at h
  split at h
  · rename_i t rest
    split at h
    · -- ","
      split at h
      · exact absurd h (by simp)
      · rename_i p ts2 hp
        have h1 := ihTAT _ _ _ h
        have h2 := ihTP _ _ hp
        simp_all [List.append_assoc]
    · split at h
      · -- ">"
        simp only [Option.some.injEq] at h; subst h
        simp [List.append_assoc]
      · exact absurd h (by simp)
  · exact absurd h (by simp)

theorem parseTypeProj_step (n : Nat)
    (ihTA : ∀ ts r, parseTypeArgs n ts = some r → cstToks r.1 ++ r.2 = ts) :
    ∀ ts r, parseTypeProj (n + 1) ts = some r → cstToks r.1 ++ r.2 = ts := by
  intro ts r h
  simp only [parseTypeProj] at h
  split at h
  · rename_i t rest
    split at h
    · simp only [Option.some.injEq] at h; subst h; simp
    · split at h
      · -- word
        split at h
        · exact absurd h (by simp)
        · split at h
          · rename_i ta ts2 hta
            have h2 := ihTA _ _ hta
            simp only [Option.some.injEq] at h; subst h
            simp_all [List.append_assoc]
          · simp only [Option.some.injEq] at h; subst h; simp
      · exact absurd h (by simp)
  · exact absurd h (by simp)

theorem parseValueArgs_step (n : Nat)
    (ihE : ∀ minP ts r, parseExpr n minP ts = some r → cstToks r.1 ++ r.2 = ts)
    (ihVAT : ∀ acc ts r, parseValueArgsTail n acc ts = some r →
      cstToks r.1 ++ r.2 = cstListToks acc ++ ts) :
    ∀ ts r, parseValueArgs (n + 1) ts = some r → cstToks r.1 ++ r.2 = ts := by
  intro ts r h
  simp only [parseValueArgs] at h
  split at h
  · rename_i t rest
    split at h
    · split at h
      · rename_i t2 rest2
        split at h
        · simp only [Option.some.injEq] at h; subst h; simp
        · split at h
          · exact absurd h (by simp)
          · rename_i e ts2 hE
            have h1 := ihVAT _ _ _ h
            have h2 := ihE _ _ _ hE
            simp_all [List.append_assoc]
      · exact absurd h (by simp)
    · exact absurd h (by simp)
  · exact absurd h (by simp)

theorem parseValueArgsTail_step (n : Nat)
    (ihE : ∀ minP ts r, parseExpr n minP ts = some r → cstToks r.1 ++ r.2 = ts)
    (ihVAT : ∀ acc ts r, parseValueArgsTail n acc ts = some r →
      cstToks r.1 ++ r.2 = cstListToks acc ++ ts) :
    ∀ acc ts r, parseValueArgsTail (n + 1) acc ts = some r →
      cstToks r.1 ++ r.2 = cstListToks acc ++ ts := by
  intro acc ts r h
  simp only [parseValueArgsTail] at h
  split at h
  · rename_i t rest
    split at h
    · -- ","
      split at h
      · exact absurd h (by simp)
      · rename_i e ts2 hE
        have h1 := ihVAT _ _ _ h
        have h2 := ihE _ _ _ hE
        simp_all [List.append_assoc]
    · split at h
      · -- ")"
        simp only [Option.some.injEq] at h; subst h
        simp [List.append_assoc]
      · exact absurd h (by simp)
  · exact absurd h (by simp)

theorem parseUnary_step (n : Nat)
    (ihU : ∀ ts r, parseUnary n ts = some r → cstToks r.1 ++ r.2 = ts)
    (ihP : ∀ ts r, parsePrimary n ts = some r → cstToks r.1 ++ r.2 = ts)
    (ihPost : ∀ lhs ts r, parsePostfix n lhs ts = some r →
      cstToks r.1 ++ r.2 = cstToks lhs ++ ts) :
    ∀ ts r, parseUnary (n + 1) ts = some r → cstToks r.1 ++ r.2 = ts := by
  intro ts r h
  simp only [parseUnary] at h
  split at h
  · rename_i t rest
    split at h
    · -- prefix operator
      split at h
      · exact absurd h (by simp)
      · rename_i e ts2 he
        have h2 := ihU _ _ he
        simp only [Option.some.injEq] at h; subst h
        simp_all [List.append_assoc]
    · split at h
      · exact absurd h (by simp)
      · rename_i p ts2 hp
        have h1 := ihPost _ _ _ h
        have h2 := ihP _ _ hp
        simp_all [List.append_assoc]
  · exact absurd h (by simp)

theorem parseBinLoop_step (n : Nat)
    (ihU : ∀ ts r, parseUnary n ts = some r → cstToks r.1 ++ r.2 = ts)
    (ihB : ∀ minP lhs ts r, parseBinLoop n minP lhs ts = some r →
      cstToks r.1 ++ r.2 = cstToks lhs ++ ts) :
    ∀ minP lhs ts r, parseBinLoop (n + 1) minP lhs ts = some r →
      cstToks r.1 ++ r.2 = cstToks lhs ++ ts := by
  intro minP lhs ts r h
  simp only [parseBinLoop] at h
  split at h
  · simp only [Option.some.injEq] at h; subst h; simp
  · rename_i t rest
    split at h
    · simp only [Option.some.injEq] at h; subst h; simp
    · rename_i p kind hbin
      split at h
      · split at h
        · simp only [Option.some.injEq] at h; subst h; simp
        · rename_i rhs0 ts2 hu
          split at h
          · exact absurd h (by simp)
          · rename_i rhs ts3 hb
            have h1 := ihB _ _ _ _ h
            have h2 := ihB _ _ _ _ hb
            have h3 := ihU _ _ hu
            simp_all [List.append_assoc]
      · simp only [Option.some.injEq] at h; subst h; simp

theorem parseExpr_step (n : Nat)
    (ihU : ∀ ts r, parseUnary n ts = some r → cstToks r.1 ++ r.2 = ts)
    (ihB : ∀ minP lhs ts r, parseBinLoop n minP lhs ts = some r →
      cstToks r.1 ++ r.2 = cstToks lhs ++ ts) :
    ∀ minP ts r, parseExpr (n + 1) minP ts = some r → cstToks r.1 ++ r.2 = ts := by
  intro minP ts r h
  simp only [parseExpr] at h
  split at h
  · exact absurd h (by simp)
  · rename_i u ts2 hu
    have h1 := ihB _ _ _ _ h
    have h2 := ihU _ _ hu
    simp_all [List.append_assoc]

theorem parseDecl_step (n : Nat)
    (ihE : ∀ minP ts r, parseExpr n minP ts = some r → cstToks r.1 ++ r.2 = ts) :
    ∀ ts r, parseDecl (n + 1) ts = some r → cstToks r.1 ++ r.2 = ts := by
  intro ts r h
  have hmod := takeModifiers_chars n ts
  simp only [parseDecl] at h
  rcases hp : takeModifiers n ts with ⟨ms, ts1⟩
  rw [hp] at h hmod
  simp only at h hmod
  split at h
  · rename_i t rest
    split at h
    · -- class / interface
      split at h
      · rename_i nn rest2
        split at h
        · split at h
          · exact absurd h (by simp)
          · simp only [Option.some.injEq] at h; subst h
            split <;> simp_all [List.append_assoc]
        · exact absurd h (by simp)
      · exact absurd h (by simp)
    · split at h
      · -- val / var
        split at h
        · rename_i nn rest2
          split at h
          · -- word
            split at h
            · exact absurd h (by simp)
            · split at h
              · rename_i e1 rest3
                split at h
                · split at h
                  · exact absurd h (by simp)
                  · rename_i e ts4 hE
                    have h2 := ihE _ _ _ hE
                    simp only [Option.some.injEq] at h; subst h
                    split <;> simp_all [List.append_assoc]
                · simp only [Option.some.injEq] at h; subst h
                  split <;> simp_all [List.append_assoc]
              · simp only [Option.some.injEq] at h; subst h
                split <;> simp_all [List.append_assoc]
          · exact absurd h (by simp)
        · exact absurd h (by simp)
      · exact absurd h (by simp)
  · exact absurd h (by simp)

theorem parseAssign_step (n : Nat)
    (ihE : ∀ minP ts r, parseExpr n minP ts = some r → cstToks r.1 ++ r.2 = ts) :
    ∀ ts r, parseAssign (n + 1) ts = some r → cstToks r.1 ++ r.2 = ts := by
  intro ts r h
  simp only [parseAssign] at h
  split at h
  · rename_i t rest
    split at h
    · split at h
      · exact absurd h (by simp)
      · split at h
        · rename_i o rest2
          split at h
          · split at h
            · exact absurd h (by simp)
            · rename_i e ts3 hE
              have h2 := ihE _ _ _ hE
              simp only [Option.some.injEq] at h; subst h
              simp_all [List.append_assoc]
          · exact absurd h (by simp)
        · exact absurd h (by simp)
    · exact absurd h (by simp)
  · exact absurd h (by simp)

theorem parseStatement_step (n : Nat)
    (ihD : ∀ ts r, parseDecl n ts = some r → cstToks r.1 ++ r.2 = ts)
    (ihA : ∀ ts r, parseAssign n ts = some r → cstToks r.1 ++ r.2 = ts)
    (ihE : ∀ minP ts r, parseExpr n minP ts = some r → cstToks r.1 ++ r.2 = ts) :
    ∀ ts r, parseStatement (n + 1) ts = some r → cstToks r.1 ++ r.2 = ts := by
  intro ts r h
  simp only [parseStatement] at h
  split at h
  · rename_i d ts2 hd
    simp only [Option.some.injEq] at h; subst h
    exact ihD _ _ hd
  · split at h
    · rename_i a ts2 ha
      simp only [Option.some.injEq] at h; subst h
      exact ihA _ _ ha
    · split at h
      · exact absurd h (by simp)
      · rename_i e ts2 hE
        simp only [Option.some.injEq] at h; subst h
        exact ihE _ _ _ hE

theorem parseStmts_step (n : Nat)
    (ihS : ∀ ts r, parseStatement n ts = some r → cstToks r.1 ++ r.2 = ts)
    (ihSS : ∀ acc ts r, parseStmts n acc ts = some r →
      cstToks r.1 ++ r.2 = cstListToks acc ++ ts) :
    ∀ acc ts r, parseStmts (n + 1) acc ts = some r →
      cstToks r.1 ++ r.2 = cstListToks acc ++ ts := by
  intro acc ts r h
  simp only [parseStmts] at h
  split at h
  · exact absurd h (by simp)
  · rename_i t rest
    split at h
    · simp only [Option.some.injEq] at h; subst h
      simp [List.append_assoc]
    · split at h
      · exact absurd h (by simp)
      · rename_i st ts2 hst
        have h2 := ihS _ _ hst
        split at h
        · rename_i t2 rest2
          split at h
          · have h1 := ihSS _ _ _ h
            simp_all [List.append_assoc]
          · split at h
            · have h1 := ihSS _ _ _ h
              simp_all [List.append_assoc]
            · exact absurd h (by simp)
        · exact absurd h (by simp)

theorem consumesAt : ∀ fuel, ConsumesAt fuel := by
  intro fuel
  induction fuel with
  | zero =>
    exact ⟨fun ts r h => by simp [parsePrimary] at h,
           fun lhs ts r h => by simp [parsePostfix] at h,
           fun lhs ts r h => by simp [tryGenericCall] at h,
           fun ts r h => by simp [parseTypeArgs] at h,
           fun acc ts r h => by simp [parseTypeArgsTail] at h,
           fun ts r h => by simp [parseTypeProj] at h,
           fun ts r h => by simp [parseValueArgs] at h,
           fun acc ts r h => by simp [parseValueArgsTail] at h,
           fun ts r h => by simp [parseUnary] at h,
           fun minP lhs ts r h => by simp [parseBinLoop] at h,
           fun minP ts r h => by simp [parseExpr] at h,
           fun ts r h => by simp [parseDecl] at h,
           fun ts r h => by simp [parseAssign] at h,
           fun ts r h => by simp [parseStatement] at h,
           fun acc ts r h => by simp [parseStmts] at h⟩
  | succ n ih =>
    obtain ⟨ihP, ihPost, ihGen, ihTA, ihTAT, ihTP, ihVA, ihVAT, ihU, ihB, ihE,
      ihD, ihA, ihS, ihSS⟩ := ih
    exact ⟨parsePrimary_step n ihE,
           parsePostfix_step n ihVA ihGen ihPost,
           tryGenericCall_step n ihTA ihVA,
           parseTypeArgs_step n ihTP ihTAT,
           parseTypeArgsTail_step n ihTP ihTAT,
           parseTypeProj_step n ihTA,
           parseValueArgs_step n ihE ihVAT,
           parseValueArgsTail_step n ihE ihVAT,
           parseUnary_step n ihU ihP ihPost,
           parseBinLoop_step n ihU ihB,
           parseExpr_step n ihU ihB,
           parseDecl_step n ihE,
           parseAssign_step n ihE,
           parseStatement_step n ihD ihA ihE,
           parseStmts_step n ihS ihSS⟩

/-! ### Theorems: the verified claims -/

/-- C8: for every input that parses without error, concatenating the raw
texts of all leaf tokens of the output tree in source order (including
each token's leading trivia) reproduces the original source exactly;
in particular children appear in original source order. -/
theorem claim8_round_trip : ∀ cs t, parseKotlin cs = some t → cstChars t = cs := by
  intro cs t h
  simp only [parseKotlin] at h
  split at h
  · exact absurd h (by simp)
  · rename_i toks hlex
    split at h
    · rename_i t' hps
      simp only [Option.some.injEq] at h
      subst h
      obtain ⟨-, -, -, -, -, -, -, -, -, -, -, -, -, -, hSS⟩ := consumesAt (parseFuel toks)
      have h2 := hSS _ _ _ hps
      simp only [cstListToks_nil, List.append_nil, List.nil_append] at h2
      have h3 := lexList_chars _ _ _ hlex
      simp only [cstChars, h2, h3]
    · exact absurd h (by simp)

/-- Witness for C8: the round trip evaluated on a concrete parse. -/
theorem claim8_round_trip_witness : cstChars rtExample = "val data = 5".toList :=
  claim8_round_trip _ _ (by rfl)

/-- C1: `foo < b > c` (no following value-argument parentheses) parses as
a left-associative comparison chain, never as a generic-argument call;
`foo<b>(c)` parses as a call with type arguments; and in general the
generic-call reading succeeds only when the type arguments are
immediately followed by value-argument parentheses. -/
theorem claim1_generics_vs_comparison :
    parseKotlinStr "foo < b > c" =
      some (.node "program" [.node "statement" [.node "comparison_expression"
        [.node "comparison_expression"
          [.node "simple_identifier" [.leaf (mkTok "" .word "foo")],
           .leaf (mkTok " " .opK "<"),
           .node "simple_identifier" [.leaf (mkTok " " .word "b")]],
         .leaf (mkTok " " .opK ">"),
         .node "simple_identifier" [.leaf (mkTok " " .word "c")]]],
        .leaf (mkTok "" .eofK "")]) ∧
    parseKotlinStr "foo<b>(c)" =
      some (.node "program" [.node "statement" [.node "call"
        [.node "simple_identifier" [.leaf (mkTok "" .word "foo")],
         .node "call_suffix"
           [.node "type_arguments"
             [.leaf (mkTok "" .opK "<"),
              .node "user_type" [.node "type_identifier" [.leaf (mkTok "" .word "b")]],
              .leaf (mkTok "" .opK ">")],
            .node "value_arguments"
             [.leaf (mkTok "" .opK "("),
              .node "argument" [.node "simple_identifier" [.leaf (mkTok "" .word "c")]],
              .leaf (mkTok "" .opK ")")]]]],
        .leaf (mkTok "" .eofK "")]) ∧
    (∀ fuel lhs ts r, tryGenericCall fuel lhs ts = some r →
      ∃ n ta ts2, fuel = n + 1 ∧ parseTypeArgs n ts = some (ta, ts2) ∧
        ∃ t2 rest2, ts2 = t2 :: rest2 ∧ isOpT t2 "(" = true) := by
  refine ⟨rfl, rfl, ?_⟩
  intro fuel lhs ts r h
  match fuel with
  | 0 => simp [tryGenericCall] at h
  | n + 1 =>
    simp only [tryGenericCall] at h
    split at h
    · exact absurd h (by simp)
    · rename_i ta ts2 hta
      split at h
      · rename_i t2 rest2
        split at h
        · rename_i hpar
          exact ⟨n, ta, t2 :: rest2, rfl, hta, t2, rest2, rfl, hpar⟩
        · exact absurd h (by simp)
      · exact absurd h (by simp)

/-- Witness for C1: the generic-call gate evaluated on the tokens of
`<b>(c)` after a parsed callee `foo`. -/
theorem claim1_generics_vs_comparison_witness :
    ∃ n ta ts2, (9 : Nat) = n + 1 ∧ parseTypeArgs n c1GenToks = some (ta, ts2) ∧
      ∃ t2 rest2, ts2 = t2 :: rest2 ∧ isOpT t2 "(" = true :=
  claim1_generics_vs_comparison.2.2 9 c1GenLhs c1GenToks c1GenRes (by rfl)

/-- C2 counterexample: the claim says assignment composition groups
right-associatively and chained assignments nest to the right; in the
grammar `assignment` is declared `prec.left` (grammar.js lines 691-706),
and the canonical chained-assignment input does not parse at all, since
`assignment_value` is an `expression_`, which excludes `assignment`. -/
theorem claim2_assignment_right_assoc_cex :
    ruleAssoc .assignmentE = Assoc.left ∧
    ((ruleAssoc .assignmentE = Assoc.right) = False) ∧
    parseKotlinStr "a = b = c" = none :=
  ⟨rfl, eq_false (by decide), rfl⟩

/-- C2 as amended: every binary arithmetic, logical and comparison rule
is declared left-associative and parses left-nested; prefix-unary is
declared right-associative and nests to the right; `assignment` is
declared left-associative, and chained assignment inputs do not parse at
all. -/
theorem claim2_associativity :
    (binaryRules.all fun r => ruleAssoc r == Assoc.left) = true ∧
    ruleAssoc .prefixE = Assoc.right ∧
    ruleAssoc .assignmentE = Assoc.left ∧
    parseKotlinStr "a = b = c" = none ∧
    parseKotlinStr "1 - 2 - 3" =
      some (.node "program" [.node "statement" [.node "additive_expression"
        [.node "additive_expression"
          [.node "integer_literal" [.leaf (mkTok "" .intL "1")],
           .leaf (mkTok " " .opK "-"),
           .node "integer_literal" [.leaf (mkTok " " .intL "2")]],
         .leaf (mkTok " " .opK "-"),
         .node "integer_literal" [.leaf (mkTok " " .intL "3")]]],
        .leaf (mkTok "" .eofK "")]) ∧
    parseKotlinStr "- - 1" =
      some (.node "program" [.node "statement" [.node "prefix_expression"
        [.leaf (mkTok "" .opK "-"),
         .node "prefix_expression"
           [.leaf (mkTok " " .opK "-"),
            .node "integer_literal" [.leaf (mkTok " " .intL "1")]]]],
        .leaf (mkTok "" .eofK "")]) :=
  ⟨by decide, rfl, rfl, rfl, rfl, rfl⟩

/-- C3 counterexample: the `PREC` table does not define exactly sixteen
distinct precedence levels. -/
theorem claim3_sixteen_levels_cex : (precLevels.length = 16) = False :=
  eq_false (by decide)

/-- C3 as amended: the `PREC` table defines seventeen distinct levels,
16 down to 0, ordered from postfix operators (tightest) down to lambda
literals, return/throw jump expressions and comments (loosest), with
every listed group assigned a level consistent with that order. -/
theorem claim3_seventeen_levels_ordered :
    precLevels.length = 17 ∧
    PREC .postfixOp > PREC .prefixOp ∧
    PREC .prefixOp > PREC .typeRhs ∧
    PREC .typeRhs > PREC .asCast ∧
    PREC .asCast > PREC .multiplicative ∧
    PREC .multiplicative > PREC .additive ∧
    PREC .additive > PREC .range ∧
    PREC .range > PREC .infixCall ∧
    PREC .infixCall > PREC .elvis ∧
    PREC .elvis > PREC .check ∧
    PREC .check > PREC .comparison ∧
    PREC .comparison > PREC .equality ∧
    PREC .equality > PREC .conjunction ∧
    PREC .conjunction > PREC .disjunction ∧
    PREC .disjunction > PREC .spread ∧
    PREC .spread = PREC .simpleUserType ∧
    PREC .simpleUserType > PREC .varDecl ∧
    PREC .varDecl = PREC .assignment ∧
    PREC .assignment = PREC .block ∧
    PREC .block > PREC .lambdaLiteral ∧
    PREC .lambdaLiteral = PREC .returnOrThrow ∧
    PREC .returnOrThrow = PREC .comment := by decide

/-- C4: every optional repeated-list construct of the grammar that the
claim names (import list, statement list, parameter list, enum member
list, catch list, argument list) always binds its field in every
derivation — to the parsed elements or to the explicit blank
placeholder — and in general every derivation of
`optional_with_placeholder f r` binds `f`. -/
theorem claim4_placeholder_fields :
    (∀ f r fs, Derives (optional_with_placeholder f r) fs → f ∈ fs) ∧
    (∀ fs, Derives programRule fs → "import_list" ∈ fs ∧ "statement_list" ∈ fs) ∧
    (∀ fs, Derives functionValueParametersRule fs → "parameter_list" ∈ fs) ∧
    (∀ fs, Derives enumClassBodyRule fs → "enum_member_list" ∈ fs) ∧
    (∀ fs, Derives valueArgumentsRule fs → "argument_list" ∈ fs) ∧
    (∀ fs, Derives tryRule fs → "catch_list" ∈ fs) ∧
    (∀ fs, Derives enclosedBodyRule fs → "statement_list" ∈ fs) :=
  ⟨fun _ _ _ => derives_owp_mem, fun _ => program_binds_lists,
   fun _ => fvp_binds_list, fun _ => enum_body_binds_list,
   fun _ => value_arguments_binds_list, fun _ => try_binds_list,
   fun _ => enclosed_body_binds_list⟩

/-- Witness for C4: the empty-program derivation binds both list
fields. -/
theorem claim4_placeholder_fields_witness :
    "import_list" ∈ (["import_list", "statement_list"] : List String) ∧
    "statement_list" ∈ (["import_list", "statement_list"] : List String) :=
  claim4_placeholder_fields.2.1 _ programDerivEmpty

/-- C7: the soft keywords parse as ordinary identifiers except in
modifier position: `val data = 5` parses `data` as a plain identifier in
the assignment variable, `data class Foo` parses `data` as a class
modifier, and a bare `data` is an ordinary identifier expression. -/
theorem claim7_soft_keywords :
    parseKotlinStr "val data = 5" =
      some (.node "program" [.node "statement" [.node "property"
        [.leaf (mkTok "" .word "val"),
         .node "assignment"
           [.node "assignment_variable"
             [.node "simple_identifier" [.leaf (mkTok " " .word "data")]],
            .node "assignment_value"
             [.leaf (mkTok " " .opK "="),
              .node "integer_literal" [.leaf (mkTok " " .intL "5")]]]]],
        .leaf (mkTok "" .eofK "")]) ∧
    parseKotlinStr "data class Foo" =
      some (.node "program" [.node "statement" [.node "class_declaration"
        [.node "modifiers" [.node "class_modifier" [.leaf (mkTok "" .word "data")]],
         .leaf (mkTok " " .word "class"),
         .node "identifier" [.leaf (mkTok " " .word "Foo")]]],
        .leaf (mkTok "" .eofK "")]) ∧
    parseKotlinStr "data" =
      some (.node "program" [.node "statement"
        [.node "simple_identifier" [.leaf (mkTok "" .word "data")]],
        .leaf (mkTok "" .eofK "")]) :=
  ⟨rfl, rfl, rfl⟩

/-- C5: in `"Sample $string.interpolation literal"` the `$identifier`
interpolation captures exactly the single bare identifier `string`: the
literal lexes to one line-string token with exactly one
interpolated-identifier segment, while `.interpolation literal` and the
leading text remain literal text; the parse yields one
line-string-literal node; and the `$\x7b...\x7d` form captures a full
nested expression, which may itself contain a nested string literal. -/
theorem claim5_string_interpolation :
    lexKotlin "\"Sample $string.interpolation literal\"".toList =
      some [mkTok ""
        (.strL false
          [.txt "Sample ".toList, .interpId "string".toList,
           .txt ".interpolation literal".toList])
        "\"Sample $string.interpolation literal\"",
        mkTok "" .eofK ""] ∧
    countInterpIds
      [.txt "Sample ".toList, .interpId "string".toList,
       .txt ".interpolation literal".toList] = 1 ∧
    parseKotlinStr "\"Sample $string.interpolation literal\"" =
      some (.node "program" [.node "statement"
        [.node "line_string_literal"
          [.leaf (mkTok ""
            (.strL false
              [.txt "Sample ".toList, .interpId "string".toList,
               .txt ".interpolation literal".toList])
            "\"Sample $string.interpolation literal\"")]],
        .leaf (mkTok "" .eofK "")]) ∧
    lexKotlin "\"Sample $\x7b\"string.interpolation\"\x7d literal\"".toList =
      some [mkTok ""
        (.strL false
          [.txt "Sample ".toList,
           .interpExpr
             [mkTok "" (.strL false [.txt "string.interpolation".toList])
               "\"string.interpolation\""],
           .txt " literal".toList])
        "\"Sample $\x7b\"string.interpolation\"\x7d literal\"",
        mkTok "" .eofK ""] :=
  ⟨rfl, rfl, rfl, rfl⟩

/-- C6: a leading sign character is never part of a numeric literal
token: `4.3f` is a real-literal leaf, `+53.9e-3F` and `-23.434` parse as
prefix-unary expressions wrapping the unsigned real literal, and none of
the numeric token patterns matches an input starting with `+` or `-`. -/
theorem claim6_sign_not_in_literal :
    parseKotlinStr "4.3f" =
      some (.node "program" [.node "statement"
        [.node "real_literal" [.leaf (mkTok "" .realL "4.3f")]],
        .leaf (mkTok "" .eofK "")]) ∧
    parseKotlinStr "+53.9e-3F" =
      some (.node "program" [.node "statement" [.node "prefix_expression"
        [.leaf (mkTok "" .opK "+"),
         .node "real_literal" [.leaf (mkTok "" .realL "53.9e-3F")]]],
        .leaf (mkTok "" .eofK "")]) ∧
    parseKotlinStr "-23.434" =
      some (.node "program" [.node "statement" [.node "prefix_expression"
        [.leaf (mkTok "" .opK "-"),
         .node "real_literal" [.leaf (mkTok "" .realL "23.434")]]],
        .leaf (mkTok "" .eofK "")]) ∧
    (∀ fuel cs, realLen fuel ('+' :: cs) = none ∧ realLen fuel ('-' :: cs) = none ∧
      intLen fuel ('+' :: cs) = none ∧ intLen fuel ('-' :: cs) = none ∧
      hexLen fuel ('+' :: cs) = none ∧ hexLen fuel ('-' :: cs) = none ∧
      binLen fuel ('+' :: cs) = none ∧ binLen fuel ('-' :: cs) = none) :=
  ⟨rfl, rfl, rfl, fun _ _ => ⟨rfl, rfl, rfl, rfl, rfl, rfl, rfl, rfl⟩⟩

/-- Digit-only inputs are their own maximal `takeWhile` prefix. -/
theorem takeWhile_all {p : Char → Bool} :
    ∀ cs : List Char, (∀ c ∈ cs, p c) → cs.takeWhile p = cs := by
  intro cs h
  induction cs with
  | nil => rfl
  | cons c rest ih =>
    rw [List.takeWhile_cons]
    simp only [h c (by simp), if_true]
    rw [ih fun x hx => h x (by simp [hx])]

/-- `sep1` group matching consumes nothing on empty input. -/
theorem sepGroups_nil (g : List Char → Option Nat) (fuel : Nat) :
    sepGroups g fuel [] = 0 := by
  cases fuel <;> simp [sepGroups, cwl]

/-- `DEC_DIGITS` matches a nonempty all-digit input entirely. -/
theorem sepDigits_all_digits (fuel : Nat) (cs : List Char) (hne : cs ≠ [])
    (hdig : ∀ c ∈ cs, c.isDigit) : sepDigits decGroup fuel cs = some cs.length := by
  have htw : cs.takeWhile Char.isDigit = cs := takeWhile_all cs hdig
  have hlen : ¬ cs.length = 0 := by simpa [List.length_eq_zero] using hne
  simp [sepDigits, decGroup, cwl, htw, hlen, List.drop_length, sepGroups_nil]

/-- C9: the integer-literal pattern
`token(seq(optional(/[1-9]/), DEC_DIGITS))` accepts digit strings with
leading zeros as one token: `08` and `007` each parse as a single
integer-literal leaf, and in general any nonempty all-digit input is
matched entirely by `integer_literal`. -/
theorem claim9_leading_zero_integers :
    parseKotlinStr "08" =
      some (.node "program" [.node "statement"
        [.node "integer_literal" [.leaf (mkTok "" .intL "08")]],
        .leaf (mkTok "" .eofK "")]) ∧
    parseKotlinStr "007" =
      some (.node "program" [.node "statement"
        [.node "integer_literal" [.leaf (mkTok "" .intL "007")]],
        .leaf (mkTok "" .eofK "")]) ∧
    (∀ fuel cs, cs ≠ [] → (∀ c ∈ cs, c.isDigit) →
      intLen fuel cs = some cs.length) := by
  refine ⟨rfl, rfl, ?_⟩
  intro fuel cs hne hdig
  have h1 := sepDigits_all_digits fuel cs hne hdig
  cases cs with
  | nil => exact absurd rfl hne
  | cons c rest =>
    simp only [intLen, h1]
    split
    · cases rest with
      | nil => simp [sepDigits, decGroup, cwl, optMax]
      | cons d rest2 =>
        have h2 := sepDigits_all_digits fuel (d :: rest2) (by simp)
          (fun x hx => hdig x (by simp [hx]))
        simp [h2, optMax]
    · simp [optMax]

/-- Witness for C9: the all-digit lemma evaluated at `08`. -/
theorem claim9_leading_zero_integers_witness :
    intLen 0 ("08".toList) = some ("08".toList.length) :=
  claim9_leading_zero_integers.2.2 0 "08".toList (by decide) (by decide)

/-- C10 counterexample: the claim says `"a $ b"` cannot be tokenized as
valid string content and produces a parse error; in fact `$` and the
identifier are separate tokens with the grammar's extras legal between
them, so the input lexes and parses error-free as a line string whose
interpolation captures the identifier `b` (the space is trivia). -/
theorem claim10_parse_error_cex :
    parseKotlinStr "\"a $ b\"" =
      some (.node "program" [.node "statement"
        [.node "line_string_literal"
          [.leaf (mkTok ""
            (.strL false [.txt "a ".toList, .interpId "b".toList])
            "\"a $ b\"")]],
        .leaf (mkTok "" .eofK "")]) ∧
    (lexKotlin "\"a $ b\"".toList).isSome = true :=
  ⟨rfl, rfl⟩

/-- C10 as amended: literal-text runs exclude `$` and the interpolation
rule requires `$\x7bexpression\x7d` or `$identifier`, but the `$` and
the identifier are separate tokens, so extras may intervene: `"a $ b"`
(line) and `"""m $ b"""` (multi-line) lex error-free with interpolated
identifier `b`; a `$` not immediately followed by `\x7b` and not
followed, after optional extras, by an identifier character matches no
lexical alternative, as in `"a $ "` and `"a $.b"`, and both scanners
reject there. -/
theorem claim10_dollar_interpolation :
    lexKotlin "\"a $ b\"".toList =
      some [mkTok "" (.strL false [.txt "a ".toList, .interpId "b".toList]) "\"a $ b\"",
        mkTok "" .eofK ""] ∧
    parseKotlinStr "\"a $ b\"" =
      some (.node "program" [.node "statement"
        [.node "line_string_literal"
          [.leaf (mkTok ""
            (.strL false [.txt "a ".toList, .interpId "b".toList])
            "\"a $ b\"")]],
        .leaf (mkTok "" .eofK "")]) ∧
    lexKotlin "\"\"\"m $ b\"\"\"".toList =
      some [mkTok "" (.strL true [.txt "m ".toList, .interpId "b".toList])
        "\"\"\"m $ b\"\"\"",
        mkTok "" .eofK ""] ∧
    lexKotlin "\"a $ \"".toList = none ∧
    lexKotlin "\"a $.b\"".toList = none ∧
    (∀ fuel c rest, ¬ c = '\x7b' →
      (((c :: rest).drop
          (triviaLen ((c :: rest).length + 1) (c :: rest))).head?.all
        fun c2 => !isIdStart c2) = true →
      scanLineStr (fuel + 1) ('$' :: c :: rest) = none ∧
      scanMultiStr (fuel + 1) ('$' :: c :: rest) = none) := by
  refine ⟨rfl, rfl, rfl, rfl, rfl, ?_⟩
  intro fuel c rest hbr hnid
  constructor
  · simp only [scanLineStr]
    split
    · simp_all
    · split
      · rename_i c2 tail heq
        rw [heq] at hnid
        simp only [List.head?_cons, Option.all] at hnid
        simp only [Bool.not_eq_true'] at hnid
        simp [hnid]
      · rfl
  · simp only [scanMultiStr]
    split
    · simp_all
    · split
      · rename_i c2 tail heq
        rw [heq] at hnid
        simp only [List.head?_cons, Option.all] at hnid
        simp only [Bool.not_eq_true'] at hnid
        simp [hnid]
      · rfl

/-- Witness for C10: both scanners evaluated at a `$` followed by a
space and a non-identifier character. -/
theorem claim10_dollar_interpolation_witness :
    scanLineStr 1 ('$' :: ' ' :: ['+']) = none ∧
    scanMultiStr 1 ('$' :: ' ' :: ['+']) = none :=
  claim10_dollar_interpolation.2.2.2.2.2 0 ' ' ['+'] (by decide) (by decide)

end Kotlin
